import Mathlib

set_option maxRecDepth 8000

/-
Verification of the Go FSM library (pkg/fsm) against its specification.
The Go code is shallowly embedded: pure data structures become Lean
structures, Go maps become association lists with replace-or-append
insertion, and the mutation performed by each method becomes an explicit
function from the old machine value to the new one.  Hook callbacks are
opaque to the transition core (the core only decides which registered
hooks run and in which order), so hooks are modelled as labelled
observers and each method additionally returns the trace of hook
invocations it performed, in order.  Impure ingredients (the clock,
crypto/rand) are modelled by passing the random input explicitly.
-/

namespace FSMGo

/-- Values stored in a context.  Go stores arbitrary interface values;
the FSM core never inspects them, so an opaque inductive suffices. -/
inductive GoVal where
  | vnil : GoVal
  | vint : Int → GoVal
  | vstr : String → GoVal
deriving DecidableEq, Repr

/-- Membership in a list, mirroring a Go map-as-set lookup `m[k]`
(absent keys yield the zero value `false`). -/
def memb [DecidableEq α] : List α → α → Bool
  | [], _ => false
  | x :: t, a => if x = a then true else memb t a

/-- Association-list lookup, mirroring a Go map read `m[k]`. -/
def assocFind [DecidableEq α] : List (α × β) → α → Option β
  | [], _ => none
  | (k', v') :: t, k => if k' = k then some v' else assocFind t k

/-- Association-list insertion, mirroring a Go map write `m[k] = v`:
the entry for an existing key is replaced, otherwise a new entry is
added. -/
def assocInsert [DecidableEq α] : List (α × β) → α → β → List (α × β)
  | [], k, v => [(k, v)]
  | (k', v') :: t, k, v => if k' = k then (k, v) :: t else (k', v') :: assocInsert t k v

/-- Association-list deletion, mirroring Go `delete(m, k)`. -/
def assocDelete [DecidableEq α] : List (α × β) → α → List (α × β)
  | [], _ => []
  | (k', v') :: t, k => if k' = k then t else (k', v') :: assocDelete t k

/-- Context contents: the internal `map[string]interface` of `ContextImpl`. -/
abbrev GoMap := List (String × GoVal)

/-- Embeds `FSMError` (types.go): typed error carrying kind, message and
the state/event coordinates. -/
structure FSMError where
  type : String
  message : String
  state : String := ""
  event : String := ""
deriving DecidableEq, Repr

/-- Embeds `NewInvalidTransitionError` (types.go). -/
def NewInvalidTransitionError (fromState event : String) : FSMError :=
  { type := "InvalidTransition"
    message := "No valid transition from state '" ++ fromState ++ "' with event '" ++ event ++ "'"
    state := fromState
    event := event }

/-- Embeds `NewStateNotFoundError` (types.go). -/
def NewStateNotFoundError (state : String) : FSMError :=
  { type := "StateNotFound"
    message := "State '" ++ state ++ "' is not defined in this FSM"
    state := state }

/-- Embeds `HookType` (types.go). -/
inductive HookType where
  | BeforeTransition : HookType
  | AfterTransition : HookType
  | OnTransitionError : HookType
  | OnStateEnter : HookType
  | OnStateExit : HookType
deriving DecidableEq, Repr

/-- Hooks are arbitrary Go callbacks; the transition core only chooses
which registered hooks to call and in which order, so each hook is
modelled by an opaque label. -/
abbrev Hook := String

/-- One observable callback performed by the core: either a registered
hook of a given kind firing, or the transition's action running. -/
inductive TraceEntry where
  | hookFired : HookType → Hook → TraceEntry
  | actionRan : TraceEntry
deriving DecidableEq, Repr

/-- Embeds `TransitionResult` (types.go).  `Timestamp` (wall clock) and
`ExecutionID` (crypto/rand, modelled separately by
`generateExecutionID`) are impure and carry no information used by any
claim about the transition protocol, so they are omitted from this
record. -/
structure TransitionResult where
  success : Bool
  fromState : String
  toState : String
  event : String := ""
  error : Option FSMError := none
deriving DecidableEq, Repr

/-- Embeds `Transition` (types.go).  `Condition` and `Action` are
optional Go function values; an action may mutate the context and may
fail, so it is modelled as returning the error outcome together with
the updated context. -/
structure Transition where
  fromState : String
  event : String
  toState : String
  condition : Option (GoMap → Bool) := none
  action : Option (String → String → String → GoMap → Option FSMError × GoMap) := none

/-- Embeds the `StateMachine` struct (state_machine.go).  The
`sync.RWMutex` serialises each method; methods are therefore modelled
as atomic functions on this record.  Go maps become association lists;
`hooks` maps each hook type to the list of registered hooks in
registration order. -/
structure StateMachine where
  currentState : String := ""
  states : List String := []
  events : List String := []
  transitions : List (String × Transition) := []
  hooks : List (HookType × List Hook) := []
  context : GoMap := []
  running : Bool := false
  initialState : String := ""

/-- Embeds `NewStateMachine` (state_machine.go): an empty, stopped
machine (Go zero values: empty string current/initial state). -/
def NewStateMachine : StateMachine := {}

/-- Embeds `transitionKey` (state_machine.go):
`fmt.Sprintf("%s:%s", from, event)`. -/
def transitionKey (fromState event : String) : String :=
  fromState ++ ":" ++ event

/-- Registered hooks of one kind, in registration order
(`sm.hooks[hookType]`; a missing key is the empty slice). -/
def hooksGet (sm : StateMachine) (t : HookType) : List Hook :=
  (assocFind sm.hooks t).getD []

/-- Embeds `executeHooks` (state_machine.go): runs every registered
hook of the given kind, in slice order.  In the model this emits the
trace of hook invocations. -/
def executeHooks (sm : StateMachine) (t : HookType) : List TraceEntry :=
  (hooksGet sm t).map (TraceEntry.hookFired t)

/-- Embeds `AddHook` (state_machine.go): appends the hook to the slice
for its kind. -/
def addHook (sm : StateMachine) (t : HookType) (h : Hook) : StateMachine :=
  { sm with hooks := assocInsert sm.hooks t (hooksGet sm t ++ [h]) }

/-- Embeds `AddState` (state_machine.go): `sm.states[state] = true`. -/
def addState (sm : StateMachine) (state : String) : StateMachine :=
  if memb sm.states state then sm else { sm with states := sm.states ++ [state] }

/-- Embeds `AddEvent` (state_machine.go): `sm.events[event] = true`. -/
def addEvent (sm : StateMachine) (event : String) : StateMachine :=
  if memb sm.events event then sm else { sm with events := sm.events ++ [event] }

/-- Embeds `AddTransition` (state_machine.go): validates that both
states and the event are defined, then writes the transition under key
`transitionKey(from, event)` (replacing any existing entry). -/
def addTransition (sm : StateMachine) (t : Transition) : Option FSMError × StateMachine :=
  if memb sm.states t.fromState = false then
    (some (NewStateNotFoundError t.fromState), sm)
  else if memb sm.states t.toState = false then
    (some (NewStateNotFoundError t.toState), sm)
  else if memb sm.events t.event = false then
    (some { type := "EventNotFound"
            message := "Event '" ++ t.event ++ "' is not defined in this FSM"
            event := t.event }, sm)
  else
    (none, { sm with transitions := assocInsert sm.transitions (transitionKey t.fromState t.event) t })

/-- Outcome of one `SendEvent` call: the returned result pointer (nil
or a result), the returned error, the machine after the call, and the
trace of callbacks performed during the call. -/
structure SendOutcome where
  result : Option TransitionResult
  error : Option FSMError
  machine : StateMachine
  trace : List TraceEntry

/-- Embeds `SendEvent` (state_machine.go), the single entry point for
driving state change.  The branch structure follows the source:
not-running and unknown-event return a nil result with no hooks;
missing transition and failed guard build a failure result and fire
`OnTransitionError`; otherwise `BeforeTransition` and `OnStateExit`
fire, the action (if any) runs — on action error the state is left
unchanged and `OnTransitionError` fires — then the state is updated and
`OnStateEnter` and `AfterTransition` fire. -/
def sendEvent (sm : StateMachine) (event : String) : SendOutcome :=
  if sm.running = false then
    { result := none
      error := some { type := "MachineNotRunning"
                      message := "Cannot send event to a stopped machine"
                      event := event }
      machine := sm
      trace := [] }
  else if memb sm.events event = false then
    { result := none
      error := some { type := "EventNotFound"
                      message := "Event '" ++ event ++ "' is not defined in this FSM"
                      event := event }
      machine := sm
      trace := [] }
  else
    match assocFind sm.transitions (transitionKey sm.currentState event) with
    | none =>
      let err := NewInvalidTransitionError sm.currentState event
      let result : TransitionResult :=
        { success := false
          fromState := sm.currentState
          toState := sm.currentState
          event := event
          error := some err }
      { result := some result
        error := some err
        machine := sm
        trace := executeHooks sm HookType.OnTransitionError }
    | some transition =>
      if (match transition.condition with
          | some c => !(c sm.context)
          | none => false) = true then
        let err : FSMError :=
          { type := "ConditionNotMet"
            message := "Transition condition not met for " ++ transition.fromState
                        ++ " --" ++ transition.event ++ "--> " ++ transition.toState
            state := sm.currentState
            event := event }
        let result : TransitionResult :=
          { success := false
            fromState := sm.currentState
            toState := sm.currentState
            event := event
            error := some err }
        { result := some result
          error := some err
          machine := sm
          trace := executeHooks sm HookType.OnTransitionError }
      else
        let result : TransitionResult :=
          { success := true
            fromState := sm.currentState
            toState := transition.toState
            event := event }
        let preTrace := executeHooks sm HookType.BeforeTransition
                          ++ executeHooks sm HookType.OnStateExit
        match transition.action with
        | some act =>
          match act sm.currentState transition.toState event sm.context with
          | (some err, ctx') =>
            { result := some { result with success := false, error := some err }
              error := some err
              machine := { sm with context := ctx' }
              trace := preTrace ++ [TraceEntry.actionRan]
                        ++ executeHooks sm HookType.OnTransitionError }
          | (none, ctx') =>
            { result := some result
              error := none
              machine := { sm with context := ctx', currentState := transition.toState }
              trace := preTrace ++ [TraceEntry.actionRan]
                        ++ executeHooks sm HookType.OnStateEnter
                        ++ executeHooks sm HookType.AfterTransition }
        | none =>
          { result := some result
            error := none
            machine := { sm with currentState := transition.toState }
            trace := preTrace
                      ++ executeHooks sm HookType.OnStateEnter
                      ++ executeHooks sm HookType.AfterTransition }

/-- Embeds `SetState` (state_machine.go): direct placement bypassing
guards; fires `OnStateExit` for the old state only when it is non-empty
(the machine had a current state), then `OnStateEnter`. -/
def setState (sm : StateMachine) (state : String) :
    Option FSMError × StateMachine × List TraceEntry :=
  if memb sm.states state = false then
    (some (NewStateNotFoundError state), sm, [])
  else
    let oldState := sm.currentState
    let sm' := { sm with currentState := state }
    let exitTrace :=
      if oldState ≠ "" then executeHooks sm' HookType.OnStateExit else []
    (none, sm', exitTrace ++ executeHooks sm' HookType.OnStateEnter)

/-- Embeds `Start` (state_machine.go): validates the state, records it
as `initialState`, makes it current, marks the machine running, and
fires `OnStateEnter`. -/
def start (sm : StateMachine) (initialState : String) :
    Option FSMError × StateMachine × List TraceEntry :=
  if memb sm.states initialState = false then
    (some (NewStateNotFoundError initialState), sm, [])
  else
    let sm' := { sm with initialState := initialState
                         currentState := initialState
                         running := true }
    (none, sm', executeHooks sm' HookType.OnStateEnter)

/-- Embeds `Stop` (state_machine.go). -/
def stop (sm : StateMachine) : Option FSMError × StateMachine × List TraceEntry :=
  let exitTrace :=
    if sm.running then executeHooks sm HookType.OnStateExit else []
  (none, { sm with running := false }, exitTrace)

/-- Embeds `Reset` (state_machine.go): requires a recorded initial
state, fires `OnStateExit` for the current state when running, returns
to `initialState` and fires `OnStateEnter`. -/
def reset (sm : StateMachine) : Option FSMError × StateMachine × List TraceEntry :=
  if sm.initialState = "" then
    (some { type := "NoInitialState"
            message := "Cannot reset machine: no initial state defined" }, sm, [])
  else
    let oldState := sm.currentState
    let exitTrace :=
      if sm.running ∧ oldState ≠ "" then executeHooks sm HookType.OnStateExit else []
    let sm' := { sm with currentState := sm.initialState, running := true }
    (none, sm', exitTrace ++ executeHooks sm' HookType.OnStateEnter)

/-- Embeds `Validate` (state_machine.go): non-empty state and event
sets, and every transition's endpoints and event defined. -/
def validate (sm : StateMachine) : Option FSMError :=
  if sm.states.length = 0 then
    some { type := "NoStates", message := "Machine has no states defined" }
  else if sm.events.length = 0 then
    some { type := "NoEvents", message := "Machine has no events defined" }
  else
    validateTransitions sm.transitions sm
where
  /-- Loop over `sm.transitions` checking each endpoint and event. -/
  validateTransitions : List (String × Transition) → StateMachine → Option FSMError
    | [], _ => none
    | (_, t) :: rest, sm =>
      if memb sm.states t.fromState = false then
        some (NewStateNotFoundError t.fromState)
      else if memb sm.states t.toState = false then
        some (NewStateNotFoundError t.toState)
      else if memb sm.events t.event = false then
        some { type := "EventNotFound"
               message := "Event '" ++ t.event ++ "' is not defined in this FSM"
               event := t.event }
      else validateTransitions rest sm

/-- Embeds the `FSMBuilder` struct (builder.go): a machine under
construction plus the requested initial state. -/
structure FSMBuilder where
  machine : StateMachine
  initialState : String := ""

/-- Embeds `NewBuilder` (builder.go). -/
def NewBuilder : FSMBuilder := { machine := NewStateMachine }

/-- Embeds `Builder.AddStates` (builder.go). -/
def FSMBuilder.addStates (b : FSMBuilder) (states : List String) : FSMBuilder :=
  { b with machine := states.foldl addState b.machine }

/-- Embeds `Builder.AddEvents` (builder.go). -/
def FSMBuilder.addEvents (b : FSMBuilder) (events : List String) : FSMBuilder :=
  { b with machine := events.foldl addEvent b.machine }

/-- Embeds `Builder.AddTransition` (builder.go): auto-registers the
referenced states and event, then adds the plain transition (the
returned error is discarded by the builder). -/
def FSMBuilder.addTransition (b : FSMBuilder) (fromState event toState : String) : FSMBuilder :=
  let t : Transition := { fromState := fromState, event := event, toState := toState }
  let m := addEvent (addState (addState b.machine fromState) toState) event
  { b with machine := (FSMGo.addTransition m t).2 }

/-- Embeds `Builder.SetInitialState` (builder.go): records the initial
state and auto-registers it. -/
def FSMBuilder.setInitialState (b : FSMBuilder) (state : String) : FSMBuilder :=
  { machine := addState b.machine state, initialState := state }

/-- Embeds `Builder.Build` (builder.go): validates the machine, then
starts it at the requested initial state when one was set. -/
def FSMBuilder.build (b : FSMBuilder) : Option FSMError × StateMachine :=
  match validate b.machine with
  | some err => (some err, b.machine)
  | none =>
    if b.initialState ≠ "" then
      match start b.machine b.initialState with
      | (some err, _, _) => (some err, b.machine)
      | (none, m, _) => (none, m)
    else (none, b.machine)

/-- Embeds `generateExecutionID` (state_machine.go): fills an 8-byte
buffer from crypto/rand — modelled as the explicit argument `random` —
and renders it with `fmt.Sprintf("%x", bytes)`, two lowercase hex
digits per byte. -/
def generateExecutionID (random : Fin 8 → Nat) : String :=
  String.mk (((List.finRange 8).map fun i => random i % 256).flatMap byteHex)
where
  /-- One hex digit (lowercase). -/
  hexDigit (n : Nat) : Char :=
    if n < 10 then Char.ofNat (48 + n) else Char.ofNat (87 + n)
  /-- Two hex digits of one byte, high nibble first. -/
  byteHex (b : Nat) : List Char :=
    [hexDigit (b / 16 % 16), hexDigit (b % 16)]

/-
Heap model for `ContextImpl` (types.go).  In Go a context holds a
reference to its internal map; `GetAll` builds a fresh map and copies
every entry into it.  To state the no-aliasing property the references
are made explicit: a heap is a list of map objects indexed by position,
and map mutation is an update at one index.
-/

/-- Heap of Go map objects; a reference is an index into `store`. -/
structure CtxHeap where
  store : List GoMap

/-- Map object a reference designates (the zero map when dangling). -/
def heapMap (h : CtxHeap) (r : Nat) : GoMap :=
  h.store.getD r []

/-- One in-place mutation of a Go map: `m[k] = v` or `delete(m, k)`. -/
inductive MapOp where
  | set : String → GoVal → MapOp
  | del : String → MapOp

/-- Applies one mutation to the map object at reference `r`, in place. -/
def heapMutate (h : CtxHeap) (r : Nat) (op : MapOp) : CtxHeap :=
  { store := h.store.set r (match op with
      | MapOp.set k v => assocInsert (heapMap h r) k v
      | MapOp.del k => assocDelete (heapMap h r) k) }

/-- Embeds the copy loop of `GetAll` (types.go): a fresh empty map into
which every entry of the source is written. -/
def copyMap (m : GoMap) : GoMap :=
  m.foldl (fun acc p => assocInsert acc p.1 p.2) []

/-- Embeds `Get` (types.go): `c.data[key]`, `nil` when absent. -/
def ctxGet (h : CtxHeap) (r : Nat) (key : String) : Option GoVal :=
  assocFind (heapMap h r) key

/-- Embeds `GetAll` (types.go) with the allocation made explicit: a new
map object is allocated at a fresh reference and every entry of the
context's map is copied into it; the new reference is returned. -/
def ctxGetAll (h : CtxHeap) (r : Nat) : Nat × CtxHeap :=
  (h.store.length, { store := h.store ++ [copyMap (heapMap h r)] })

/-
Concrete traffic-light machine of the specification's example 1:
states red/yellow/green, single event timer, the three-cycle of
transitions, initial state red, constructed through the builder.
-/

/-- Traffic-light machine built through the fluent builder and started
at `red` by `Build`. -/
def trafficBuild : Option FSMError × StateMachine :=
  (((((NewBuilder.addStates
      ["red", "yellow", "green"]).addEvents
      ["timer"]).addTransition "red" "timer" "green").addTransition
      "green" "timer" "yellow").addTransition
      "yellow" "timer" "red").setInitialState "red" |>.build

/-- Machine state after the build (running, at `red`). -/
def tlM0 : StateMachine := trafficBuild.2

/-- First `SendEvent(timer)` outcome. -/
def tlO1 : SendOutcome := sendEvent tlM0 "timer"

/-- Second `SendEvent(timer)` outcome. -/
def tlO2 : SendOutcome := sendEvent tlO1.machine "timer"

/-- Third `SendEvent(timer)` outcome. -/
def tlO3 : SendOutcome := sendEvent tlO2.machine "timer"

/-- Fourth `SendEvent(timer)` outcome. -/
def tlO4 : SendOutcome := sendEvent tlO3.machine "timer"

/-
Natural-language parser (natural_language.go / src/unnamed/part_004).
The parser is driven by five RE2 regular expressions; they are embedded
as regex syntax trees and evaluated by a backtracking matcher with
leftmost-first (earliest start, first preference) semantics, matching
the observable behaviour of Go `FindAllStringSubmatch` on these
patterns.  `(?i)` case folding is applied to the literals; the
character classes already contain both cases.
-/

/-- Character classes appearing in the parser's patterns. -/
inductive CharCls where
  | wordC : CharCls
  | listC : CharCls
  | spaceC : CharCls
deriving DecidableEq, Repr

/-- Class `[a-zA-Z0-9_]`. -/
def isWordChar (c : Char) : Bool :=
  (('a' ≤ c ∧ c ≤ 'z') ∨ ('A' ≤ c ∧ c ≤ 'Z') ∨ ('0' ≤ c ∧ c ≤ '9') ∨ c = '_' : Prop)

/-- RE2 `\x5cs` whitespace: tab, newline, form feed, carriage return, space. -/
def isSpaceRE (c : Char) : Bool :=
  (c = '\t' ∨ c = '\n' ∨ c = '\x0c' ∨ c = '\r' ∨ c = ' ' : Prop)

/-- Membership test of one character in a class. -/
def clsMem : CharCls → Char → Bool
  | CharCls.wordC, c => isWordChar c
  | CharCls.listC, c => isWordChar c || c = ',' || isSpaceRE c
  | CharCls.spaceC, c => isSpaceRE c

/-- Regex syntax: case-insensitive literal, single class character,
concatenation, alternation (first alternative preferred), greedy star,
and a numbered capturing group. -/
inductive Re where
  | litCI : List Char → Re
  | cls : CharCls → Re
  | seq : Re → Re → Re
  | alt : Re → Re → Re
  | star : Re → Re
  | group : Nat → Re → Re

/-- Captured groups of one match: group number with captured text. -/
abbrev Caps := List (Nat × List Char)

/-- Consumes a case-insensitive literal from the front of the input. -/
def stripCI : List Char → List Char → Option (List Char)
  | [], s => some s
  | _ :: _, [] => none
  | c :: p, x :: t => if x.toLower = c.toLower then stripCI p t else none

/-- Greedy-star loop given the matcher of the star's body: prefers
consuming one more body match (which must consume input) over
stopping.  Fuel bounds the number of unfoldings; each unfolding
consumes at least one character, so `input length + 1` fuel is exact. -/
def mreStar (body : List Char → List (List Char × Caps)) :
    Nat → List Char → List (List Char × Caps)
  | 0, s => [(s, [])]
  | fuel + 1, s =>
    ((body s).flatMap fun p =>
      if p.1.length < s.length then
        (mreStar body fuel p.1).map fun q => (q.1, p.2 ++ q.2)
      else []) ++ [(s, [])]

/-- Enumerates, in backtracking preference order, every way the regex
can consume a prefix of the input: each entry is the remaining suffix
with the accumulated captures.  Greedy star prefers consuming more, and
alternation prefers its left branch, as in leftmost-first matching. -/
def mre : Re → List Char → List (List Char × Caps)
  | Re.litCI l, s =>
    match stripCI l s with
    | some rest => [(rest, [])]
    | none => []
  | Re.cls c, s =>
    match s with
    | [] => []
    | x :: rest => if clsMem c x then [(rest, [])] else []
  | Re.seq a b, s =>
    (mre a s).flatMap fun p =>
      (mre b p.1).map fun q => (q.1, p.2 ++ q.2)
  | Re.alt a b, s => mre a s ++ mre b s
  | Re.group n a, s =>
    (mre a s).map fun p => (p.1, p.2 ++ [(n, s.take (s.length - p.1.length))])
  | Re.star a, s => mreStar (fun s2 => mre a s2) (s.length + 1) s

/-- Leftmost match: tries the pattern at each start position from the
left and returns the first-preference match at the first position that
matches, as Go regexp matching does. -/
def reSearch (r : Re) : List Char → Option (List Char × Caps)
  | [] => (mre r []).head?
  | x :: t =>
    match (mre r (x :: t)).head? with
    | some p => some p
    | none => reSearch r t

/-- Repeated leftmost search, continuing after the end of each match:
the capture lists of every non-overlapping match, left to right
(`FindAllStringSubmatch` with limit -1). -/
def findAllCaps : Nat → Re → List Char → List Caps
  | 0, _, _ => []
  | fuel + 1, r, s =>
    match reSearch r s with
    | none => []
    | some (rest, caps) =>
      caps :: (if rest.length < s.length then findAllCaps fuel r rest else [])

/-- All matches of a pattern in the input (their capture lists). -/
def findAll (r : Re) (s : List Char) : List Caps :=
  findAllCaps (s.length + 1) r s

/-- Text of a numbered group within one match (`match[n]`). -/
def capGet (caps : Caps) (n : Nat) : List Char :=
  (assocFind caps n).getD []

/-- Shorthand for `X+`. -/
def rplus (a : Re) : Re := Re.seq a (Re.star a)

/-- Shorthand for greedy `X?` (prefers matching). -/
def ropt (a : Re) : Re := Re.alt a (Re.litCI [])

/-- Pattern `state_list` of `statePatterns`:
`(?i)states?:?\x5cs*([a-zA-Z0-9_,\x5cs]+)`. -/
def reStateList : Re :=
  Re.seq (Re.litCI "state".data)
    (Re.seq (ropt (Re.litCI "s".data))
      (Re.seq (ropt (Re.litCI ":".data))
        (Re.seq (Re.star (Re.cls CharCls.spaceC))
          (Re.group 1 (rplus (Re.cls CharCls.listC))))))

/-- Pattern `states` of `statePatterns`:
`(?i)(?:in|at|state)\x5cs+([a-zA-Z0-9_]+)`. -/
def reStatesWord : Re :=
  Re.seq (Re.alt (Re.litCI "in".data) (Re.alt (Re.litCI "at".data) (Re.litCI "state".data)))
    (Re.seq (rplus (Re.cls CharCls.spaceC))
      (Re.group 1 (rplus (Re.cls CharCls.wordC))))

/-- Pattern `event_list` of `eventPatterns`:
`(?i)events?:?\x5cs*([a-zA-Z0-9_,\x5cs]+)`. -/
def reEventList : Re :=
  Re.seq (Re.litCI "event".data)
    (Re.seq (ropt (Re.litCI "s".data))
      (Re.seq (ropt (Re.litCI ":".data))
        (Re.seq (Re.star (Re.cls CharCls.spaceC))
          (Re.group 1 (rplus (Re.cls CharCls.listC))))))

/-- Pattern `events` of `eventPatterns`:
`(?i)(?:when|on|event)\x5cs+([a-zA-Z0-9_]+)`. -/
def reEventsWord : Re :=
  Re.seq (Re.alt (Re.litCI "when".data) (Re.alt (Re.litCI "on".data) (Re.litCI "event".data)))
    (Re.seq (rplus (Re.cls CharCls.spaceC))
      (Re.group 1 (rplus (Re.cls CharCls.wordC))))

/-- Pattern `transition` of `transitionPatterns`:
`(?i)from\x5cs+([a-zA-Z0-9_]+)\x5cs+(?:to|→)\x5cs+([a-zA-Z0-9_]+)\x5cs+(?:when|on)\x5cs+([a-zA-Z0-9_]+)`. -/
def reTransition : Re :=
  Re.seq (Re.litCI "from".data)
    (Re.seq (rplus (Re.cls CharCls.spaceC))
      (Re.seq (Re.group 1 (rplus (Re.cls CharCls.wordC)))
        (Re.seq (rplus (Re.cls CharCls.spaceC))
          (Re.seq (Re.alt (Re.litCI "to".data) (Re.litCI "→".data))
            (Re.seq (rplus (Re.cls CharCls.spaceC))
              (Re.seq (Re.group 2 (rplus (Re.cls CharCls.wordC)))
                (Re.seq (rplus (Re.cls CharCls.spaceC))
                  (Re.seq (Re.alt (Re.litCI "when".data) (Re.litCI "on".data))
                    (Re.seq (rplus (Re.cls CharCls.spaceC))
                      (Re.group 3 (rplus (Re.cls CharCls.wordC))))))))))))

/-- Pattern `simple` of `transitionPatterns`:
`(?i)([a-zA-Z0-9_]+)\x5cs+(?:→|->|to)\x5cs+([a-zA-Z0-9_]+)`. -/
def reSimple : Re :=
  Re.seq (Re.group 1 (rplus (Re.cls CharCls.wordC)))
    (Re.seq (rplus (Re.cls CharCls.spaceC))
      (Re.seq (Re.alt (Re.litCI "→".data) (Re.alt (Re.litCI "->".data) (Re.litCI "to".data)))
        (Re.seq (rplus (Re.cls CharCls.spaceC))
          (Re.group 2 (rplus (Re.cls CharCls.wordC))))))

/-- Embeds `StateConfig` (config loader): name and description
(the unused `Properties` field is omitted). -/
structure StateConfig where
  name : String
  description : String
deriving DecidableEq, Repr

/-- Embeds `EventConfig` (config loader). -/
structure EventConfig where
  name : String
  description : String
deriving DecidableEq, Repr

/-- Embeds `TransitionConfig` (config loader): the parser fills only
`From`, `Event`, `To`; `Condition` and `Action` stay empty strings. -/
structure TransitionConfig where
  fromState : String
  event : String
  toState : String
  condition : String := ""
  action : String := ""
deriving DecidableEq, Repr

/-- Embeds `ConfigMachine` (config loader), the intermediate definition
`ParseDescription` produces (the `Hooks` field, never set by the
parser, is omitted; `Context` starts empty). -/
structure ConfigMachine where
  name : String
  description : String
  initialState : String := ""
  states : List StateConfig := []
  events : List EventConfig := []
  transitions : List TransitionConfig := []
  context : GoMap := []
deriving DecidableEq, Repr

/-- Embeds Go `strings.Split(s, ",")`. -/
def splitOnComma : List Char → List (List Char)
  | [] => [[]]
  | c :: t =>
    if c = ',' then [] :: splitOnComma t
    else
      match splitOnComma t with
      | h :: r => (c :: h) :: r
      | [] => [[c]]

/-- Whitespace trimmed by Go `strings.TrimSpace` (the ASCII part of
Unicode White_Space; the input never contains non-ASCII whitespace). -/
def isGoSpace (c : Char) : Bool :=
  (c = ' ' ∨ c = '\t' ∨ c = '\n' ∨ c = '\r' ∨ c = '\x0b' ∨ c = '\x0c' : Prop)

/-- Embeds Go `strings.TrimSpace`: removes leading and trailing
whitespace only. -/
def trimSpace (l : List Char) : List Char :=
  ((l.dropWhile isGoSpace).reverse.dropWhile isGoSpace).reverse

/-- Embeds `extractTransitions` (part_004): collects the matches of the
two transition patterns; a three-group match gives `(from, to, event)`,
a two-group match gives `(from, to)` with default event `trigger`.
Go iterates `transitionPatterns` (a map) in unspecified order; the
source-literal order `transition, simple` is fixed here — the multiset
of produced transitions does not depend on that order. -/
def extractTransitions (desc : List Char) : List TransitionConfig :=
  [reTransition, reSimple].foldl (fun acc pat =>
    (findAll pat desc).foldl (fun acc caps =>
      -- Go: len(match) >= 3 counts the whole match, so it means ≥ 2 groups,
      -- and len(match) >= 4 means ≥ 3 groups.
      if caps.length ≥ 2 then
        if caps.length ≥ 3 then
          acc ++ [{ fromState := String.mk (capGet caps 1)
                    event := String.mk (capGet caps 3)
                    toState := String.mk (capGet caps 2) }]
        else
          acc ++ [{ fromState := String.mk (capGet caps 1)
                    event := "trigger"
                    toState := String.mk (capGet caps 2) }]
      else acc) acc) []

/-- Embeds `inferStatesFromTransitions` (part_004). -/
def inferStatesFromTransitions (desc : List Char) : List StateConfig :=
  ((extractTransitions desc).foldl (fun acc t =>
    let acc :=
      if memb acc.1 t.fromState then acc
      else (acc.1 ++ [t.fromState],
            acc.2 ++ [{ name := t.fromState
                        description := "Inferred state: " ++ t.fromState }])
    if memb acc.1 t.toState then acc
    else (acc.1 ++ [t.toState],
          acc.2 ++ [{ name := t.toState
                      description := "Inferred state: " ++ t.toState }]))
    (([] : List String), ([] : List StateConfig))).2

/-- Embeds `inferEventsFromTransitions` (part_004). -/
def inferEventsFromTransitions (desc : List Char) : List EventConfig :=
  ((extractTransitions desc).foldl (fun acc t =>
    if memb acc.1 t.event then acc
    else (acc.1 ++ [t.event],
          acc.2 ++ [{ name := t.event, description := "Inferred event: " ++ t.event }]))
    (([] : List String), ([] : List EventConfig))).2

/-- Embeds `extractStates` (part_004): for each state pattern, each
match's first group is split on commas, trimmed, and deduplicated.
Pattern order fixed to the source-literal order `state_list, states`
(the produced name set is order-independent here: only `state_list`
matches the inputs considered). -/
def extractStates (desc : List Char) : List StateConfig :=
  let res := [reStateList, reStatesWord].foldl (fun acc pat =>
    (findAll pat desc).foldl (fun acc caps =>
      (splitOnComma (capGet caps 1)).foldl (fun acc nameChars =>
        let name := String.mk (trimSpace nameChars)
        if name ≠ "" ∧ memb acc.1 name = false then
          (acc.1 ++ [name], acc.2 ++ [{ name := name, description := "State: " ++ name }])
        else acc) acc) acc)
    (([] : List String), ([] : List StateConfig))
  if res.2.length = 0 then inferStatesFromTransitions desc else res.2

/-- Embeds `extractEvents` (part_004), symmetric to `extractStates`
with the event patterns. -/
def extractEvents (desc : List Char) : List EventConfig :=
  let res := [reEventList, reEventsWord].foldl (fun acc pat =>
    (findAll pat desc).foldl (fun acc caps =>
      (splitOnComma (capGet caps 1)).foldl (fun acc nameChars =>
        let name := String.mk (trimSpace nameChars)
        if name ≠ "" ∧ memb acc.1 name = false then
          (acc.1 ++ [name], acc.2 ++ [{ name := name, description := "Event: " ++ name }])
        else acc) acc) acc)
    (([] : List String), ([] : List EventConfig))
  if res.2.length = 0 then inferEventsFromTransitions desc else res.2

/-- Embeds `ParseDescription` (part_004): extracts states, events and
transitions and takes the first extracted state as initial state.  The
Go error return is always nil (the extraction helpers never fail), so
it is omitted. -/
def parseDescription (description : String) : ConfigMachine :=
  let desc := description.data
  let states := extractStates desc
  let events := extractEvents desc
  let transitions := extractTransitions desc
  { name := "parsed_fsm"
    description := "Auto-generated from natural language"
    states := states
    events := events
    transitions := transitions
    initialState :=
      match states with
      | first :: _ => first.name
      | [] => "" }

/-- Four-line natural-language input of the claim. -/
def fourLineInput : String :=
  "States: idle, working, done\nEvents: start, finish\nFrom idle to working when start\nFrom working to done when finish"

/-- Well-formedness of the transitions map maintained by the machine:
keys are pairwise distinct (it is a Go map) and every entry sits under
the key computed from its own source state and event. -/
def TransWF (ts : List (String × Transition)) : Prop :=
  (ts.map Prod.fst).Nodup ∧ ∀ p ∈ ts, p.1 = transitionKey p.2.fromState p.2.event

/-- A name that does not contain the key separator of `transitionKey`. -/
def NoColon (s : String) : Prop := ':' ∉ s.data

instance decNoColon (s : String) : Decidable (NoColon s) :=
  inferInstanceAs (Decidable (':' ∉ s.data))

/-
Concrete machines used as counterexample inputs and witnesses.
-/

/-- Transition action that always fails without touching the context. -/
def failAct : String → String → String → GoMap → Option FSMError × GoMap :=
  fun _ _ _ ctx => (some { type := "ActionFailed", message := "boom" }, ctx)

/-- Transition a-go→b whose action fails. -/
def failT : Transition :=
  { fromState := "a", event := "go", toState := "b", action := some failAct }

/-- Machine of the action-failure scenario: states a and b, event go,
transition a-go→b whose action fails, one labelled hook of every kind,
started in a. -/
def actionFailM : StateMachine :=
  { currentState := "a"
    states := ["a", "b"]
    events := ["go"]
    transitions := [(transitionKey "a" "go", failT)]
    hooks := [(HookType.BeforeTransition, ["hb"]),
              (HookType.OnStateExit, ["hx"]),
              (HookType.OnStateEnter, ["hn"]),
              (HookType.AfterTransition, ["ha"]),
              (HookType.OnTransitionError, ["he"])]
    running := true
    initialState := "a" }

/-- Stopped machine with a registered `OnTransitionError` hook. -/
def stoppedM : StateMachine :=
  { currentState := "a"
    states := ["a"]
    events := ["go"]
    hooks := [(HookType.OnTransitionError, ["he"])]
    running := false }

/-- Running machine with an event that has no transition from the
current state. -/
def noTransM : StateMachine :=
  { currentState := "a"
    states := ["a"]
    events := ["go"]
    hooks := [(HookType.OnTransitionError, ["he"])]
    running := true }

/-- Machine exhibiting the transition-key collision: the pair
(a:b, c) and the pair (a, b:c) both map to the key a:b:c. -/
def colonM : StateMachine :=
  { states := ["a:b", "a", "x", "y"]
    events := ["c", "b:c"] }

/-- First collision insert: transition for the pair (a:b, c). -/
def colonM1 : StateMachine :=
  (addTransition colonM { fromState := "a:b", event := "c", toState := "x" }).2

/-- Second collision insert: transition for the distinct pair (a, b:c),
which lands on the same key and overwrites the first. -/
def colonM2 : StateMachine :=
  (addTransition colonM1 { fromState := "a", event := "b:c", toState := "y" }).2

/-- Machine with two states used for the double-start scenario. -/
def twoStartM : StateMachine := { states := ["a", "b"] }

/-- Transition a-go→b with an action that always succeeds. -/
def successT : Transition :=
  { fromState := "a", event := "go", toState := "b"
    action := some fun _ _ _ ctx => (none, ctx) }

/-- Machine with hooks and a succeeding action, used to witness the
successful-transition hook order. -/
def successM : StateMachine :=
  { currentState := "a"
    states := ["a", "b"]
    events := ["go"]
    transitions := [(transitionKey "a" "go", successT)]
    hooks := [(HookType.BeforeTransition, ["hb1", "hb2"]),
              (HookType.OnStateExit, ["hx"]),
              (HookType.OnStateEnter, ["hn"]),
              (HookType.AfterTransition, ["ha"]),
              (HookType.OnTransitionError, ["he"])]
    running := true
    initialState := "a" }

/-- Plain transition a-e→b already present in `cleanM`. -/
def wt0 : Transition := { fromState := "a", event := "e", toState := "b" }

/-- Plain transition b-e→a added to `cleanM` by the C5 witness. -/
def wtNew : Transition := { fromState := "b", event := "e", toState := "a" }

/-- Small well-formed machine holding one transition, for the C5
witness. -/
def cleanM : StateMachine :=
  { states := ["a", "b"]
    events := ["e"]
    transitions := [(transitionKey "a" "e", wt0)] }

/-- Event name produced by the event-list pattern when its character
class crosses the newline into the following lines. -/
def leakedEventName : String :=
  "finish\nFrom idle to working when start\nFrom working to done when finish"

/-- Never-started machine with one hook of each state kind, used to
witness direct placement into a machine with no current state. -/
def unsetM : StateMachine :=
  { states := ["a"]
    hooks := [(HookType.OnStateEnter, ["hn"]), (HookType.OnStateExit, ["hx"])]
    running := false }

/-- Concrete one-context heap used to witness the `GetAll` snapshot
property. -/
def oneCtxHeap : CtxHeap := { store := [[("k", GoVal.vint 1)]] }

/-
Theorems.  Helper lemmas come first; each claim is then settled by one
theorem (with its witness or counterexample where required).
-/

theorem assocFind_insert_self [DecidableEq α] (l : List (α × β)) (k : α) (v : β) :
    assocFind (assocInsert l k v) k = some v := by
  induction l with
  | nil => simp [assocInsert, assocFind]
  | cons p t ih =>
    obtain ⟨k2, v2⟩ := p
    by_cases h : k2 = k
    · simp [assocInsert, assocFind, h]
    · simp [assocInsert, assocFind, h, ih]

theorem assocFind_insert_ne [DecidableEq α] (l : List (α × β)) (k k2 : α) (v : β)
    (h : k2 ≠ k) : assocFind (assocInsert l k v) k2 = assocFind l k2 := by
  have h2 : k ≠ k2 := Ne.symm h
  induction l with
  | nil => simp [assocInsert, assocFind, h2]
  | cons p t ih =>
    obtain ⟨k3, v3⟩ := p
    by_cases h3 : k3 = k
    · subst h3
      simp [assocInsert, assocFind, Ne.symm h]
    · by_cases h4 : k3 = k2 <;> simp [assocInsert, assocFind, h, h3, h4, ih]

theorem assocFind_eq_none [DecidableEq α] (l : List (α × β)) (k : α)
    (h : k ∉ l.map Prod.fst) : assocFind l k = none := by
  induction l with
  | nil => simp [assocFind]
  | cons p t ih =>
    obtain ⟨k2, v2⟩ := p
    simp only [List.map_cons, List.mem_cons] at h
    push_neg at h
    simp [assocFind, Ne.symm h.1, ih h.2]

theorem assocFind_append [DecidableEq α] (l1 l2 : List (α × β)) (k : α) :
    assocFind (l1 ++ l2) k =
      match assocFind l1 k with
      | some v => some v
      | none => assocFind l2 k := by
  induction l1 with
  | nil => simp [assocFind]
  | cons p t ih =>
    obtain ⟨k2, v2⟩ := p
    by_cases h : k2 = k <;> simp [assocFind, h, ih]

theorem mem_keys_assocInsert [DecidableEq α] (l : List (α × β)) (k k2 : α) (v : β)
    (h : k2 ∈ (assocInsert l k v).map Prod.fst) : k2 = k ∨ k2 ∈ l.map Prod.fst := by
  induction l with
  | nil => simpa [assocInsert] using h
  | cons p t ih =>
    obtain ⟨k3, v3⟩ := p
    by_cases h3 : k3 = k
    · simp only [assocInsert, if_pos h3, List.map_cons, List.mem_cons] at h
      rcases h with h | h
      · exact Or.inl h
      · exact Or.inr (by simp [h])
    · simp only [assocInsert, if_neg h3, List.map_cons, List.mem_cons] at h
      rcases h with h | h
      · exact Or.inr (by simp [h])
      · rcases ih h with h | h
        · exact Or.inl h
        · exact Or.inr (by simp [h])

theorem nodup_keys_assocInsert [DecidableEq α] (l : List (α × β)) (k : α) (v : β)
    (h : (l.map Prod.fst).Nodup) : ((assocInsert l k v).map Prod.fst).Nodup := by
  induction l with
  | nil => simp [assocInsert]
  | cons p t ih =>
    obtain ⟨k3, v3⟩ := p
    simp only [List.map_cons, List.nodup_cons] at h
    by_cases h3 : k3 = k
    · subst h3
      simpa [assocInsert] using h
    · simp only [assocInsert, if_neg h3, List.map_cons, List.nodup_cons]
      refine ⟨fun hmem => ?_, ih h.2⟩
      rcases mem_keys_assocInsert t k k3 v hmem with h4 | h4
      · exact h3 h4
      · exact h.1 h4

theorem mem_assocInsert [DecidableEq α] (l : List (α × β)) (k : α) (v : β)
    (p : α × β) (h : p ∈ assocInsert l k v) : p = (k, v) ∨ p ∈ l := by
  induction l with
  | nil => simpa [assocInsert] using h
  | cons q t ih =>
    obtain ⟨k3, v3⟩ := q
    by_cases h3 : k3 = k
    · simp only [assocInsert, if_pos h3, List.mem_cons] at h
      rcases h with h | h
      · exact Or.inl h
      · exact Or.inr (List.mem_cons_of_mem _ h)
    · simp only [assocInsert, if_neg h3, List.mem_cons] at h
      rcases h with h | h
      · exact Or.inr (by simp [h])
      · rcases ih h with h | h
        · exact Or.inl h
        · exact Or.inr (List.mem_cons_of_mem _ h)

theorem append_sep_inj (c : Char) :
    ∀ (l1 l2 r1 r2 : List Char), c ∉ l1 → c ∉ l2 →
      l1 ++ c :: r1 = l2 ++ c :: r2 → l1 = l2 ∧ r1 = r2 := by
  intro l1
  induction l1 with
  | nil =>
    intro l2 r1 r2 _ h2 heq
    cases l2 with
    | nil => simpa using heq
    | cons x t =>
      simp only [List.nil_append, List.cons_append, List.cons.injEq] at heq
      refine absurd (heq.1 ▸ List.mem_cons_self x t) ?_
      simp [heq.1] at h2
  | cons x t ih =>
    intro l2 r1 r2 h1 h2 heq
    cases l2 with
    | nil =>
      simp only [List.cons_append, List.nil_append, List.cons.injEq] at heq
      exact absurd (by simp [heq.1]) h1
    | cons y u =>
      simp only [List.cons_append, List.cons.injEq] at heq
      obtain ⟨hx, hrest⟩ := heq
      have := ih u r1 r2 (fun hm => h1 (List.mem_cons_of_mem _ hm))
        (fun hm => h2 (List.mem_cons_of_mem _ hm)) hrest
      exact ⟨by simp [hx, this.1], this.2⟩

theorem transitionKey_inj (f1 e1 f2 e2 : String)
    (h1 : NoColon f1) (h2 : NoColon f2)
    (h : transitionKey f1 e1 = transitionKey f2 e2) : f1 = f2 ∧ e1 = e2 := by
  have hdata : f1.data ++ ':' :: e1.data = f2.data ++ ':' :: e2.data := by
    have := congrArg String.data h
    simpa [transitionKey, String.data_append] using this
  have hsep := append_sep_inj ':' f1.data f2.data e1.data e2.data h1 h2 hdata
  exact ⟨congrArg String.mk hsep.1, congrArg String.mk hsep.2⟩

theorem hookFired_not_mem_executeHooks (sm : StateMachine) (k k2 : HookType) (h : Hook)
    (hne : k2 ≠ k) : TraceEntry.hookFired k2 h ∉ executeHooks sm k := by
  intro hmem
  simp only [executeHooks, List.mem_map] at hmem
  obtain ⟨a, _, heq⟩ := hmem
  injection heq with hk _
  exact hne hk.symm

theorem actionRan_not_mem_executeHooks (sm : StateMachine) (k : HookType) :
    TraceEntry.actionRan ∉ executeHooks sm k := by
  intro hmem
  simp only [executeHooks, List.mem_map] at hmem
  obtain ⟨a, _, heq⟩ := hmem
  exact TraceEntry.noConfusion heq

/-- C2 (amended): each `SendEvent` precondition failure produces its
distinct error kind and leaves `currentState` (indeed the whole
machine) unchanged; but only the `InvalidTransition` case returns a
`TransitionResult` and fires the `OnTransitionError` hooks — for
`MachineNotRunning` and `EventNotFound` the result is nil and no hooks
fire. -/
theorem claim_C2_amended (sm : StateMachine) (e : String) :
    (sm.running = false →
      sendEvent sm e =
        { result := none
          error := some { type := "MachineNotRunning"
                          message := "Cannot send event to a stopped machine"
                          event := e }
          machine := sm
          trace := [] })
    ∧ (sm.running = true → memb sm.events e = false →
      sendEvent sm e =
        { result := none
          error := some { type := "EventNotFound"
                          message := "Event '" ++ e ++ "' is not defined in this FSM"
                          event := e }
          machine := sm
          trace := [] })
    ∧ (sm.running = true → memb sm.events e = true →
      assocFind sm.transitions (transitionKey sm.currentState e) = none →
      sendEvent sm e =
        { result := some { success := false
                           fromState := sm.currentState
                           toState := sm.currentState
                           event := e
                           error := some (NewInvalidTransitionError sm.currentState e) }
          error := some (NewInvalidTransitionError sm.currentState e)
          machine := sm
          trace := executeHooks sm HookType.OnTransitionError }) := by
  refine ⟨fun h => ?_, fun h1 h2 => ?_, fun h1 h2 h3 => ?_⟩
  · simp [sendEvent, h]
  · simp [sendEvent, h1, h2]
  · simp [sendEvent, h1, h2, h3]

/-- Witness for C2: the three precondition failures observed on
concrete machines. -/
theorem claim_C2_amended_witness :
    sendEvent stoppedM "go" =
      { result := none
        error := some { type := "MachineNotRunning"
                        message := "Cannot send event to a stopped machine"
                        event := "go" }
        machine := stoppedM
        trace := [] }
    ∧ sendEvent noTransM "nope" =
      { result := none
        error := some { type := "EventNotFound"
                        message := "Event '" ++ "nope" ++ "' is not defined in this FSM"
                        event := "nope" }
        machine := noTransM
        trace := [] }
    ∧ sendEvent noTransM "go" =
      { result := some { success := false
                         fromState := "a"
                         toState := "a"
                         event := "go"
                         error := some (NewInvalidTransitionError "a" "go") }
        error := some (NewInvalidTransitionError "a" "go")
        machine := noTransM
        trace := executeHooks noTransM HookType.OnTransitionError } :=
  ⟨(claim_C2_amended stoppedM "go").1 rfl,
   (claim_C2_amended noTransM "nope").2.1 rfl rfl,
   (claim_C2_amended noTransM "go").2.2 rfl rfl rfl⟩

/-- Counterexample for C2 as stated: on a stopped machine with a
registered `OnTransitionError` hook, `SendEvent` returns no
`TransitionResult` (nil) and fires no hook at all. -/
theorem claim_C2_counterexample :
    (sendEvent stoppedM "go").result = none
    ∧ (sendEvent stoppedM "go").trace = []
    ∧ hooksGet stoppedM HookType.OnTransitionError = ["he"] := by
  decide

/-- C4 (amended): `initialState` is recorded at every `Start`, the last
start winning: after `Start(s1)` then `Start(s2)` the recorded
`initialState` is `s2`, and a subsequent `Reset` returns the machine to
`s2`. -/
theorem claim_C4_amended (sm : StateMachine) (s1 s2 : String)
    (h1 : memb sm.states s1 = true) (h2 : memb sm.states s2 = true) (h3 : s2 ≠ "") :
    (start (start sm s1).2.1 s2).2.1.initialState = s2
    ∧ (reset (start (start sm s1).2.1 s2).2.1).2.1.currentState = s2 := by
  constructor
  · simp [start, h1, h2]
  · simp [start, reset, h1, h2, h3]

/-- Witness for C4: starting at a then at b records b, and reset goes
to b. -/
theorem claim_C4_amended_witness :
    (start (start twoStartM "a").2.1 "b").2.1.initialState = "b"
    ∧ (reset (start (start twoStartM "a").2.1 "b").2.1).2.1.currentState = "b" :=
  claim_C4_amended twoStartM "a" "b" (by decide) (by decide) (by decide)

/-- Counterexample for C4 as stated: after `Start(a)` then `Start(b)`,
the recorded `initialState` is b, not the first-start state a, and
`Reset` places the machine at b. -/
theorem claim_C4_counterexample :
    (start (start twoStartM "a").2.1 "b").2.1.initialState ≠ "a"
    ∧ (start (start twoStartM "a").2.1 "b").2.1.initialState = "b"
    ∧ (reset (start (start twoStartM "a").2.1 "b").2.1).2.1.currentState ≠ "a" := by
  decide

/-- C7: the traffic-light machine (states red/yellow/green, event
timer, the three-cycle, initial red) visits red, green, yellow, red,
green under four timer events, every `SendEvent` succeeding. -/
theorem claim_C7 :
    trafficBuild.1 = none
    ∧ [tlM0.currentState, tlO1.machine.currentState, tlO2.machine.currentState,
        tlO3.machine.currentState, tlO4.machine.currentState]
      = ["red", "green", "yellow", "red", "green"]
    ∧ tlO1.error = none ∧ tlO2.error = none ∧ tlO3.error = none ∧ tlO4.error = none
    ∧ tlO1.result.map TransitionResult.success = some true
    ∧ tlO2.result.map TransitionResult.success = some true
    ∧ tlO3.result.map TransitionResult.success = some true
    ∧ tlO4.result.map TransitionResult.success = some true := by
  decide

/-- One hex digit is in 0-9 or a-f when its argument is below 16. -/
theorem hexDigitRange (n : Nat) (h : n < 16) :
    ('0' ≤ generateExecutionID.hexDigit n ∧ generateExecutionID.hexDigit n ≤ '9')
    ∨ ('a' ≤ generateExecutionID.hexDigit n ∧ generateExecutionID.hexDigit n ≤ 'f') := by
  interval_cases n <;> decide

/-- C8 (amended): every execution identifier renders the 8 random
bytes (64 random bits) as exactly 16 lowercase hexadecimal
characters. -/
theorem claim_C8_amended (random : Fin 8 → Nat) :
    (generateExecutionID random).length = 16
    ∧ ∀ c ∈ (generateExecutionID random).data,
        ('0' ≤ c ∧ c ≤ '9') ∨ ('a' ≤ c ∧ c ≤ 'f') := by
  constructor
  · rfl
  · intro c hc
    have hc2 : c ∈ ((List.finRange 8).map fun i => random i % 256).flatMap
        generateExecutionID.byteHex := hc
    rw [List.mem_flatMap] at hc2
    obtain ⟨b, _, hb⟩ := hc2
    simp only [generateExecutionID.byteHex, List.mem_cons, List.not_mem_nil,
      or_false] at hb
    have h16 : ∀ m : Nat, m % 16 < 16 := fun m => Nat.mod_lt _ (by norm_num)
    rcases hb with rfl | rfl
    · exact hexDigitRange _ (h16 _)
    · exact hexDigitRange _ (h16 _)

/-- Witness for C8: the all-zero random bytes give a 16-character
identifier whose first character is a hex digit. -/
theorem claim_C8_amended_witness :
    (generateExecutionID (fun _ => 0)).length = 16
    ∧ (('0' ≤ '0' ∧ '0' ≤ '9') ∨ ('a' ≤ '0' ∧ '0' ≤ 'f')) :=
  ⟨(claim_C8_amended (fun _ => 0)).1,
   (claim_C8_amended (fun _ => 0)).2 '0' (by decide)⟩

/-- Counterexample for C8 as stated: the identifier always has 16 hex
characters (64 rendered bits), not the 32 a hex rendering of 128 bits
would have. -/
theorem claim_C8_counterexample :
    generateExecutionID (fun _ => 0) = "0000000000000000"
    ∧ (generateExecutionID (fun _ => 0)).length = 16
    ∧ (generateExecutionID (fun _ => 0)).length ≠ 32 := by
  decide

/-- C10: `SetState` on an undefined state returns `StateNotFound`,
fires no hooks and leaves the machine unchanged; a successful
`SetState` on a machine whose current state is unset (the empty
zero-value) fires only the `OnStateEnter` hooks — no `OnStateExit` hook
fires for the empty old state. -/
theorem claim_C10 (sm : StateMachine) (s : String) :
    (memb sm.states s = false →
      setState sm s = (some (NewStateNotFoundError s), sm, []))
    ∧ (memb sm.states s = true → sm.currentState = "" →
      (setState sm s).1 = none
      ∧ (setState sm s).2.2 = executeHooks sm HookType.OnStateEnter
      ∧ ∀ hk, TraceEntry.hookFired HookType.OnStateExit hk ∉ (setState sm s).2.2) := by
  refine ⟨fun h => by simp [setState, h], fun h hcur => ?_⟩
  have htr : (setState sm s).2.2 = executeHooks sm HookType.OnStateEnter := by
    simp [setState, h, hcur, executeHooks, hooksGet]
  refine ⟨by simp [setState, h], htr, fun hk => ?_⟩
  rw [htr]
  exact hookFired_not_mem_executeHooks sm _ _ hk (by decide)

/-- Witness for C10: placement into an undefined state fails without
hooks; placement into a never-started machine fires only the enter
hook. -/
theorem claim_C10_witness :
    setState unsetM "zz" = (some (NewStateNotFoundError "zz"), unsetM, [])
    ∧ ((setState unsetM "a").1 = none
        ∧ (setState unsetM "a").2.2 = executeHooks unsetM HookType.OnStateEnter
        ∧ TraceEntry.hookFired HookType.OnStateExit "hx" ∉ (setState unsetM "a").2.2) :=
  ⟨(claim_C10 unsetM "zz").1 (by decide),
   ⟨((claim_C10 unsetM "a").2 (by decide) rfl).1,
    ((claim_C10 unsetM "a").2 (by decide) rfl).2.1,
    ((claim_C10 unsetM "a").2 (by decide) rfl).2.2 "hx"⟩⟩

/-- C1 (amended): when the transition's action fails, `SendEvent`
leaves `currentState` unchanged, fires the `OnTransitionError` hooks
exactly once, returns the action's error, and neither `OnStateEnter`
nor `AfterTransition` fires — but `BeforeTransition` and `OnStateExit`
have already fired before the action ran: the trace is exactly
BeforeTransition hooks, OnStateExit hooks, the action, then
OnTransitionError hooks. -/
theorem claim_C1_amended (sm : StateMachine) (go : String) (t : Transition)
    (act : String → String → String → GoMap → Option FSMError × GoMap)
    (err : FSMError) (ctx2 : GoMap)
    (hrun : sm.running = true)
    (hev : memb sm.events go = true)
    (ht : assocFind sm.transitions (transitionKey sm.currentState go) = some t)
    (hcond : (match t.condition with | some c => !(c sm.context) | none => false) = false)
    (hact : t.action = some act)
    (hfail : act sm.currentState t.toState go sm.context = (some err, ctx2)) :
    (sendEvent sm go).machine.currentState = sm.currentState
    ∧ (sendEvent sm go).error = some err
    ∧ (sendEvent sm go).trace
        = executeHooks sm HookType.BeforeTransition
          ++ executeHooks sm HookType.OnStateExit
          ++ [TraceEntry.actionRan]
          ++ executeHooks sm HookType.OnTransitionError
    ∧ ∀ hk, TraceEntry.hookFired HookType.OnStateEnter hk ∉ (sendEvent sm go).trace
          ∧ TraceEntry.hookFired HookType.AfterTransition hk ∉ (sendEvent sm go).trace := by
  have htrace : (sendEvent sm go).trace
      = executeHooks sm HookType.BeforeTransition
        ++ executeHooks sm HookType.OnStateExit
        ++ [TraceEntry.actionRan]
        ++ executeHooks sm HookType.OnTransitionError := by
    simp [sendEvent, hrun, hev, ht, hcond, hact, hfail]
  refine ⟨?_, ?_, htrace, fun hk => ⟨?_, ?_⟩⟩
  · simp [sendEvent, hrun, hev, ht, hcond, hact, hfail]
  · simp [sendEvent, hrun, hev, ht, hcond, hact, hfail]
  · rw [htrace]
    intro hmem
    simp only [List.mem_append, List.mem_singleton] at hmem
    rcases hmem with ((hmem | hmem) | hmem) | hmem
    · exact hookFired_not_mem_executeHooks sm _ _ hk (by decide) hmem
    · exact hookFired_not_mem_executeHooks sm _ _ hk (by decide) hmem
    · exact TraceEntry.noConfusion hmem
    · exact hookFired_not_mem_executeHooks sm _ _ hk (by decide) hmem
  · rw [htrace]
    intro hmem
    simp only [List.mem_append, List.mem_singleton] at hmem
    rcases hmem with ((hmem | hmem) | hmem) | hmem
    · exact hookFired_not_mem_executeHooks sm _ _ hk (by decide) hmem
    · exact hookFired_not_mem_executeHooks sm _ _ hk (by decide) hmem
    · exact TraceEntry.noConfusion hmem
    · exact hookFired_not_mem_executeHooks sm _ _ hk (by decide) hmem

/-- Witness for C1: the action-failure machine observed concretely. -/
theorem claim_C1_amended_witness :
    (sendEvent actionFailM "go").machine.currentState = actionFailM.currentState
    ∧ (sendEvent actionFailM "go").error
        = some { type := "ActionFailed", message := "boom" }
    ∧ (sendEvent actionFailM "go").trace
        = executeHooks actionFailM HookType.BeforeTransition
          ++ executeHooks actionFailM HookType.OnStateExit
          ++ [TraceEntry.actionRan]
          ++ executeHooks actionFailM HookType.OnTransitionError
    ∧ ∀ hk, TraceEntry.hookFired HookType.OnStateEnter hk ∉ (sendEvent actionFailM "go").trace
          ∧ TraceEntry.hookFired HookType.AfterTransition hk ∉ (sendEvent actionFailM "go").trace :=
  claim_C1_amended actionFailM "go" failT failAct
    { type := "ActionFailed", message := "boom" } actionFailM.context
    rfl (by decide) rfl rfl rfl rfl

/-- Counterexample for C1 as stated: on action failure the state stays
a and the action error is returned, but the hook trace does contain an
`OnStateExit` entry, so it is not BeforeTransition and
OnTransitionError only. -/
theorem claim_C1_counterexample :
    TraceEntry.hookFired HookType.OnStateExit "hx" ∈ (sendEvent actionFailM "go").trace
    ∧ (sendEvent actionFailM "go").machine.currentState = "a"
    ∧ (sendEvent actionFailM "go").error
        = some { type := "ActionFailed", message := "boom" } := by
  decide

/-- C3: the hook trace of a successful `SendEvent` is exactly the
BeforeTransition hooks, the OnStateExit hooks, the action (if any), the
OnStateEnter hooks, then the AfterTransition hooks; each segment lists
the hooks of its kind in registration order, and `AddHook` appends to
that order. -/
theorem claim_C3 (sm : StateMachine) (event : String) (t : Transition)
    (hrun : sm.running = true)
    (hev : memb sm.events event = true)
    (ht : assocFind sm.transitions (transitionKey sm.currentState event) = some t)
    (hcond : (match t.condition with | some c => !(c sm.context) | none => false) = false)
    (hact : match t.action with
            | some act => (act sm.currentState t.toState event sm.context).1 = none
            | none => True) :
    (sendEvent sm event).trace
        = executeHooks sm HookType.BeforeTransition
          ++ executeHooks sm HookType.OnStateExit
          ++ (match t.action with | some _ => [TraceEntry.actionRan] | none => [])
          ++ executeHooks sm HookType.OnStateEnter
          ++ executeHooks sm HookType.AfterTransition
    ∧ ∀ (k : HookType) (h : Hook), hooksGet (addHook sm k h) k = hooksGet sm k ++ [h] := by
  constructor
  · cases hta : t.action with
    | none => simp [sendEvent, hrun, hev, ht, hcond, hta]
    | some act =>
      rw [hta] at hact
      simp only at hact
      rcases hres : act sm.currentState t.toState event sm.context with ⟨e1, ctxr⟩
      rw [hres] at hact
      simp only at hact
      subst hact
      simp [sendEvent, hrun, hev, ht, hcond, hta, hres]
  · intro k h
    simp [addHook, hooksGet, assocFind_insert_self]

/-- Witness for C3: the successful transition of `successM` observed
concretely, including the appended-registration property. -/
theorem claim_C3_witness :
    (sendEvent successM "go").trace
        = executeHooks successM HookType.BeforeTransition
          ++ executeHooks successM HookType.OnStateExit
          ++ (match successT.action with | some _ => [TraceEntry.actionRan] | none => [])
          ++ executeHooks successM HookType.OnStateEnter
          ++ executeHooks successM HookType.AfterTransition
    ∧ ∀ (k : HookType) (h : Hook),
        hooksGet (addHook successM k h) k = hooksGet successM k ++ [h] :=
  claim_C3 successM "go" successT rfl (by decide) rfl rfl rfl

theorem eq_of_mem_keys_nodup [DecidableEq α] {l : List (α × β)}
    (hnd : (l.map Prod.fst).Nodup) {p q : α × β}
    (hp : p ∈ l) (hq : q ∈ l) (h : p.1 = q.1) : p = q := by
  induction l with
  | nil => cases hp
  | cons x tl ih =>
    simp only [List.map_cons, List.nodup_cons] at hnd
    rcases List.mem_cons.mp hp with hp1 | hp1 <;>
      rcases List.mem_cons.mp hq with hq1 | hq1
    · rw [hp1, hq1]
    · have hmem : q.1 ∈ List.map Prod.fst tl := List.mem_map_of_mem Prod.fst hq1
      rw [← h, hp1] at hmem
      exact absurd hmem hnd.1
    · have hmem : p.1 ∈ List.map Prod.fst tl := List.mem_map_of_mem Prod.fst hp1
      rw [h, hq1] at hmem
      exact absurd hmem hnd.1
    · exact ih hnd.2 hp1 hq1

theorem addTransition_cases (sm : StateMachine) (t : Transition) :
    ((addTransition sm t).1.isSome ∧ (addTransition sm t).2 = sm)
    ∨ ((addTransition sm t).1 = none
        ∧ (addTransition sm t).2.transitions
            = assocInsert sm.transitions (transitionKey t.fromState t.event) t) := by
  unfold addTransition
  split
  · exact Or.inl ⟨rfl, rfl⟩
  · split
    · exact Or.inl ⟨rfl, rfl⟩
    · split
      · exact Or.inl ⟨rfl, rfl⟩
      · exact Or.inr ⟨rfl, rfl⟩

theorem transWF_assocInsert (ts : List (String × Transition)) (t : Transition)
    (hwf : TransWF ts) :
    TransWF (assocInsert ts (transitionKey t.fromState t.event) t) := by
  refine ⟨nodup_keys_assocInsert _ _ _ hwf.1, fun p hp => ?_⟩
  rcases mem_assocInsert _ _ _ _ hp with h | h
  · rw [h]
  · exact hwf.2 p h

/-- C5 (amended): the transitions map holds at most one transition per
(from, event) pair and adding a transition for the same pair replaces
the previous one (last writer wins); adding a transition never disturbs
the entry of a different (from, event) pair **whose string key
`from:event` differs** — which is guaranteed whenever the source states
contain no colon.  (With colon-bearing names two distinct pairs can
share one key and overwrite each other.) -/
theorem claim_C5_amended (sm : StateMachine) (t : Transition) :
    (TransWF sm.transitions → TransWF (addTransition sm t).2.transitions)
    ∧ (TransWF sm.transitions →
        ∀ p q, p ∈ sm.transitions → q ∈ sm.transitions →
          p.2.fromState = q.2.fromState → p.2.event = q.2.event → p = q)
    ∧ ((addTransition sm t).1 = none →
        assocFind (addTransition sm t).2.transitions (transitionKey t.fromState t.event)
          = some t)
    ∧ (∀ f2 e2, NoColon t.fromState → NoColon f2 →
        (f2, e2) ≠ (t.fromState, t.event) →
        assocFind (addTransition sm t).2.transitions (transitionKey f2 e2)
          = assocFind sm.transitions (transitionKey f2 e2)) := by
  refine ⟨fun hwf => ?_, fun hwf p q hp hq hf he => ?_, fun hnone => ?_, fun f2 e2 hc1 hc2 hne => ?_⟩
  · rcases addTransition_cases sm t with h | h
    · rw [h.2]; exact hwf
    · rw [h.2]; exact transWF_assocInsert _ _ hwf
  · have hkey : p.1 = q.1 := by
      rw [hwf.2 p hp, hwf.2 q hq, hf, he]
    exact eq_of_mem_keys_nodup hwf.1 hp hq hkey
  · rcases addTransition_cases sm t with h | h
    · rw [hnone] at h
      exact absurd h.1 (by simp)
    · rw [h.2]
      exact assocFind_insert_self _ _ _
  · rcases addTransition_cases sm t with h | h
    · rw [h.2]
    · rw [h.2]
      refine assocFind_insert_ne _ _ _ _ fun heq => ?_
      have := transitionKey_inj f2 e2 t.fromState t.event hc2 hc1 heq
      exact hne (Prod.ext this.1 this.2)

/-- Witness for C5: on `cleanM`, preservation of well-formedness,
pair-uniqueness, last-writer-wins for the added pair, and the frame for
a colon-free different pair, all observed concretely. -/
theorem claim_C5_amended_witness :
    TransWF (addTransition cleanM wtNew).2.transitions
    ∧ (transitionKey "a" "e", wt0) = (transitionKey "a" "e", wt0)
    ∧ assocFind (addTransition cleanM wtNew).2.transitions (transitionKey "b" "e")
        = some wtNew
    ∧ assocFind (addTransition cleanM wtNew).2.transitions (transitionKey "a" "x")
        = assocFind cleanM.transitions (transitionKey "a" "x") :=
  ⟨(claim_C5_amended cleanM wtNew).1 ⟨by decide, by decide⟩,
   (claim_C5_amended cleanM wtNew).2.1 ⟨by decide, by decide⟩
     (transitionKey "a" "e", wt0) (transitionKey "a" "e", wt0)
     (List.mem_singleton.mpr rfl) (List.mem_singleton.mpr rfl) rfl rfl,
   (claim_C5_amended cleanM wtNew).2.2.1 rfl,
   (claim_C5_amended cleanM wtNew).2.2.2 "a" "x" (by decide) (by decide) (by decide)⟩

/-- Counterexample for C5 as stated: the distinct pairs (a:b, c) and
(a, b:c) share the key a:b:c, so adding the second transition
overwrites the first — after both adds only one transition remains and
the key of the pair (a:b, c) now yields the (a, b:c) transition. -/
theorem claim_C5_counterexample :
    ((assocFind colonM2.transitions (transitionKey "a:b" "c")).map
        fun tr => (tr.fromState, tr.event, tr.toState)) = some ("a", "b:c", "y")
    ∧ ((assocFind colonM1.transitions (transitionKey "a:b" "c")).map
        fun tr => (tr.fromState, tr.event, tr.toState)) = some ("a:b", "c", "x")
    ∧ colonM2.transitions.length = 1 := by
  decide

theorem getD_append_left (l l2 : List α) (i : Nat) (d : α) (h : i < l.length) :
    (l ++ l2).getD i d = l.getD i d := by
  induction l generalizing i with
  | nil => exact absurd h (by simp)
  | cons x t ih =>
    cases i with
    | zero => rfl
    | succ j =>
      have : j < t.length := by simpa using h
      simpa [List.getD_cons_succ] using ih j this

theorem getD_append_length (l : List α) (a d : α) :
    (l ++ [a]).getD l.length d = a := by
  induction l with
  | nil => rfl
  | cons x t ih => simp [List.getD_cons_succ, ih]

theorem getD_set_ne (l : List α) (i j : Nat) (a d : α) (h : i ≠ j) :
    (l.set i a).getD j d = l.getD j d := by
  induction l generalizing i j with
  | nil => rfl
  | cons x t ih =>
    cases i with
    | zero =>
      cases j with
      | zero => exact absurd rfl h
      | succ j2 => rfl
    | succ i2 =>
      cases j with
      | zero => rfl
      | succ j2 =>
        have : i2 ≠ j2 := fun e => h (by rw [e])
        simpa [List.getD_cons_succ] using ih i2 j2 this

theorem assocFind_copyMap (m : GoMap) (hnd : (m.map Prod.fst).Nodup) (k : String) :
    assocFind (copyMap m) k = assocFind m k := by
  induction m using List.reverseRecOn with
  | nil => rfl
  | append_singleton l p ih =>
    have hcm : copyMap (l ++ [p]) = assocInsert (copyMap l) p.1 p.2 := by
      simp [copyMap, List.foldl_append]
    have hnd2 : (l.map Prod.fst).Nodup ∧ p.1 ∉ l.map Prod.fst := by
      rw [List.map_append, List.nodup_append] at hnd
      exact ⟨hnd.1, fun hm => hnd.2.2 hm (by simp)⟩
    rw [hcm, assocFind_append]
    by_cases hk : k = p.1
    · subst hk
      rw [assocFind_insert_self, assocFind_eq_none l p.1 hnd2.2]
      simp [assocFind]
    · rw [assocFind_insert_ne _ _ _ _ hk, ih hnd2.1]
      cases hfl : assocFind l k with
      | some v => rfl
      | none => simp [assocFind, Ne.symm hk]

theorem heapMap_foldl_mutate (ops : List MapOp) (h0 : CtxHeap) (r r2 : Nat)
    (hne : r2 ≠ r) :
    heapMap (ops.foldl (fun hh op => heapMutate hh r2 op) h0) r = heapMap h0 r := by
  induction ops generalizing h0 with
  | nil => rfl
  | cons op rest ih =>
    rw [List.foldl_cons, ih]
    show ((h0.store.set r2 _).getD r []) = h0.store.getD r []
    exact getD_set_ne _ _ _ _ _ hne

/-- C9: `GetAll` returns an independent copy of the context's mapping:
the fresh map holds exactly the context's entries, the context itself
is untouched by the call, and no sequence of insert/overwrite/delete
mutations applied to the returned map ever changes the map the context
owns. -/
theorem claim_C9 (h : CtxHeap) (r : Nat) (hr : r < h.store.length)
    (hnd : ((heapMap h r).map Prod.fst).Nodup) :
    (ctxGetAll h r).1 ≠ r
    ∧ heapMap (ctxGetAll h r).2 r = heapMap h r
    ∧ (∀ k, assocFind (heapMap (ctxGetAll h r).2 (ctxGetAll h r).1) k
          = assocFind (heapMap h r) k)
    ∧ ∀ ops : List MapOp,
        heapMap (ops.foldl (fun hh op => heapMutate hh (ctxGetAll h r).1 op)
          (ctxGetAll h r).2) r = heapMap h r := by
  have hfresh : (ctxGetAll h r).1 = h.store.length := rfl
  have hold : heapMap (ctxGetAll h r).2 r = heapMap h r := by
    show (h.store ++ [copyMap (heapMap h r)]).getD r [] = h.store.getD r []
    exact getD_append_left _ _ _ _ hr
  refine ⟨fun he => absurd (hfresh ▸ he).symm (Nat.ne_of_lt hr), hold, fun k => ?_, fun ops => ?_⟩
  · have hcopy : heapMap (ctxGetAll h r).2 (ctxGetAll h r).1 = copyMap (heapMap h r) := by
      show (h.store ++ [copyMap (heapMap h r)]).getD h.store.length [] = _
      exact getD_append_length _ _ _
    rw [hcopy, assocFind_copyMap _ hnd]
  · rw [heapMap_foldl_mutate _ _ _ _ (hfresh ▸ Ne.symm (Nat.ne_of_lt hr)), hold]

/-- Witness for C9: one concrete context; the copy is fresh and holds
the entry, and overwriting then deleting through the copy leaves the
context intact. -/
theorem claim_C9_witness :
    (ctxGetAll oneCtxHeap 0).1 ≠ 0
    ∧ heapMap (ctxGetAll oneCtxHeap 0).2 0 = heapMap oneCtxHeap 0
    ∧ assocFind (heapMap (ctxGetAll oneCtxHeap 0).2 (ctxGetAll oneCtxHeap 0).1) "k"
        = assocFind (heapMap oneCtxHeap 0) "k"
    ∧ heapMap ([MapOp.set "k" (GoVal.vint 2), MapOp.del "k"].foldl
        (fun hh op => heapMutate hh (ctxGetAll oneCtxHeap 0).1 op)
        (ctxGetAll oneCtxHeap 0).2) 0 = heapMap oneCtxHeap 0 :=
  ⟨(claim_C9 oneCtxHeap 0 (by decide) (by decide)).1,
   (claim_C9 oneCtxHeap 0 (by decide) (by decide)).2.1,
   (claim_C9 oneCtxHeap 0 (by decide) (by decide)).2.2.1 "k",
   (claim_C9 oneCtxHeap 0 (by decide) (by decide)).2.2.2
     [MapOp.set "k" (GoVal.vint 2), MapOp.del "k"]⟩

/-- C6 (amended): on the four-line input the parser yields states
idle, working and "done\nEvents" (the state-list character class
crosses the newline and swallows the following header), events start,
the leaked multi-line name and finish, the two described transitions
plus two default-event trigger transitions contributed by the simple
X-to-Y pattern, all without guards or actions, and initial state
idle. -/
theorem claim_C6_amended :
    parseDescription fourLineInput =
      { name := "parsed_fsm"
        description := "Auto-generated from natural language"
        initialState := "idle"
        states := [{ name := "idle", description := "State: idle" },
                   { name := "working", description := "State: working" },
                   { name := "done\nEvents", description := "State: done\nEvents" }]
        events := [{ name := "start", description := "Event: start" },
                   { name := leakedEventName,
                     description := "Event: " ++ leakedEventName },
                   { name := "finish", description := "Event: finish" }]
        transitions := [{ fromState := "idle", event := "start", toState := "working" },
                        { fromState := "working", event := "finish", toState := "done" },
                        { fromState := "idle", event := "trigger", toState := "working" },
                        { fromState := "working", event := "trigger", toState := "done" }]
        context := [] } := by
  decide

/-- Counterexample for C6 as stated: the parsed states include the
malformed name "done\nEvents" rather than done, and four transitions
are produced, not the claimed two. -/
theorem claim_C6_counterexample :
    memb ((parseDescription fourLineInput).states.map StateConfig.name) "done\nEvents" = true
    ∧ memb ((parseDescription fourLineInput).states.map StateConfig.name) "done" = false
    ∧ (parseDescription fourLineInput).transitions.length = 4 := by
  decide

end FSMGo
